import Mathlib

/-!
Verification of the lexibase clustering-and-categorization core.

This file gives a shallow embedding of the core operations of the
repository (vector-store query layer, clustering post-processing, titling
client, category propagation, and the batch orchestrator) and proves the
specified properties about them.

Modelling conventions:
* The external vector database is represented by a Backend record whose
  operations return Except values; the Python try/except blocks become
  matches on those values.  A Backend built from a concrete list of
  records (storeBackend) models a healthy store, and failingBackend
  models a store whose every call raises.
* Machine floats are modelled by the rationals.  The numpy call
  np.linalg.norm(v - c) is modelled by the squared Euclidean distance
  sqDist v c; the square root is strictly monotone on nonnegative
  arguments, so every comparison and every sort order is unchanged.
* The k-means fit itself is an external library call (sklearn); its two
  outputs, the label of each input vector and the centroid of each label,
  are parameters (labels, centers) of the embedded post-processing code.
* Python dicts keyed by strings or by integer labels are association
  lists with the Python insertion-order semantics: a new key is appended,
  an existing key is overwritten in place.
-/

namespace Lexibase

/-- Persisted word record: payload fields plus the stored vector.  The
category and cluster_id fields are absent until propagation runs. -/
structure WordRecord where
  id : Nat
  word : String
  meaning : Option String
  synonyms : List String
  category : Option String
  cluster_id : Option Int
  vector : List Rat
  deriving DecidableEq, Inhabited

/-- Words of a store, in store order.  The propagation stage looks records
up by word, so this projection determines all lookups. -/
def wordsOf (recs : List WordRecord) : List String :=
  recs.map WordRecord.word

/-- A similarity-search hit returned by the backend: a record together
with its similarity score. -/
structure ScoredPoint where
  payload : WordRecord
  score : Rat
  deriving DecidableEq

/-- One condition of a store filter, mirroring the two qdrant match kinds
used by the code: exact value match and full-text match on a field. -/
inductive Cond where
  | matchValue (key : String) (value : String)
  | matchText (key : String) (text : String)
  deriving DecidableEq

/-- Boolean test: does the character list pat occur as a prefix of s. -/
def startsWithChars : List Char → List Char → Bool
  | [], _ => true
  | _ :: _, [] => false
  | p :: ps, c :: cs => p == c && startsWithChars ps cs

/-- Boolean test: does the character list pat occur contiguously inside s.
Models the full-text containment used by the qdrant MatchText filter. -/
def containsChars (pat : List Char) : List Char → Bool
  | [] => pat.isEmpty
  | c :: cs => startsWithChars pat (c :: cs) || containsChars pat cs

/-- Semantics of one filter condition on a record, for the payload keys
the code actually filters on (category and meaning). -/
def condMatches (r : WordRecord) : Cond → Bool
  | .matchValue key v =>
    if key = "category" then decide (r.category = some v)
    else if key = "word" then decide (r.word = v)
    else false
  | .matchText key t =>
    if key = "meaning" then containsChars t.toList ((r.meaning.getD "").toList)
    else false

/-- Semantics of an optional must-filter: no filter accepts everything,
a filter requires every condition to hold. -/
def matchesFilter (f : Option (List Cond)) (r : WordRecord) : Bool :=
  match f with
  | none => true
  | some conds => conds.all (condMatches r)

/-- The vector-store boundary: similarity search, one filtered page, and
the exhaustive paginated scan (the while-loop over scroll pages).  Every
operation may fail, modelling a raised backend exception. -/
structure Backend where
  search : List Rat → Option (List Cond) → Nat → Except String (List ScoredPoint)
  scroll : Option (List Cond) → Nat → Except String (List WordRecord)
  scanAll : Except String (List WordRecord)

/-- Ordering of search hits by descending score, used by the healthy
backend model to rank similarity results. -/
def scoreGE (a b : ScoredPoint) : Prop := b.score ≤ a.score

instance : DecidableRel scoreGE :=
  fun a b => inferInstanceAs (Decidable (b.score ≤ a.score))

/-- A healthy backend over a concrete record list.  Filters are honoured
per their semantics, search scores come from the given scoring function
and hits are ranked by descending score, scans enumerate in store order. -/
def storeBackend (recs : List WordRecord) (scoreOf : List Rat → WordRecord → Rat) :
    Backend where
  search v f limit :=
    .ok ((((recs.filter (matchesFilter f)).map
      (fun r => ⟨r, scoreOf v r⟩)).insertionSort scoreGE).take limit)
  scroll f limit := .ok ((recs.filter (matchesFilter f)).take limit)
  scanAll := .ok recs

/-- A backend whose every operation raises, modelling an unavailable or
erroring vector database. -/
def failingBackend (msg : String) : Backend where
  search _ _ _ := .error msg
  scroll _ _ := .error msg
  scanAll := .error msg

/-- Python round to three decimals, used on scores before returning them.
Rounding of exact half-thousandths differs from the Python bankers
rounding; no specified property depends on a half-thousandth score. -/
def round3 (q : Rat) : Rat := (round (q * 1000) : Int) / 1000

/-- Embeds search_similar (qdrant_client.py lines 52-61): return the raw
backend hits, or None when the backend raises. -/
def search_similar (b : Backend) (vector : List Rat) (limit : Nat) :
    Option (List ScoredPoint) :=
  match b.search vector none limit with
  | .ok rs => some rs
  | .error _ => none

/-- Result shape of hybrid_search. -/
structure HybridHit where
  word : String
  score : Rat
  meaning : Option String
  synonyms : List String
  deriving DecidableEq

/-- Embeds hybrid_search (lines 64-88): meaning full-text filter plus
similarity ranking; None when the backend raises. -/
def hybrid_search (b : Backend) (vector : List Rat) (keyword : String) (limit : Nat) :
    Option (List HybridHit) :=
  match b.search vector (some [.matchText "meaning" keyword]) limit with
  | .ok rs => some (rs.map fun r =>
      ⟨r.payload.word, r.score, r.payload.meaning, r.payload.synonyms⟩)
  | .error _ => none

/-- Result shape of search_by_category. -/
structure CatHit where
  word : String
  score : Rat
  category : Option String
  meaning : Option String
  synonyms : List String
  deriving DecidableEq

/-- Embeds search_by_category (lines 152-181): category exact filter plus
similarity ranking; empty list when the backend raises. -/
def search_by_category (b : Backend) (vector : List Rat) (category : String)
    (limit : Nat) : List CatHit :=
  match b.search vector (some [.matchValue "category" category]) limit with
  | .ok rs => rs.map fun r =>
      ⟨r.payload.word, round3 r.score, r.payload.category, r.payload.meaning,
        r.payload.synonyms⟩
  | .error _ => []

/-- Entry of the category listing. -/
structure CategoryCount where
  category : String
  word_count : Nat
  deriving DecidableEq

/-- Python dict counter increment with insertion-order semantics. -/
def dictIncr (d : List (String × Nat)) (k : String) : List (String × Nat) :=
  match d with
  | [] => [(k, 1)]
  | (k2, n) :: rest =>
    if k2 = k then (k2, n + 1) :: rest else (k2, n) :: dictIncr rest k

/-- Ordering of category counts by descending word count, the order of the
category listing (a stable descending sort, as Python sorted reverse). -/
def countGE (a b : String × Nat) : Prop := b.2 ≤ a.2

instance : DecidableRel countGE :=
  fun a b => inferInstanceAs (Decidable (b.2 ≤ a.2))

/-- Embeds get_all_categories (lines 187-226): exhaustive scan counting
distinct category values, sorted by descending count; empty list when the
backend raises. -/
def get_all_categories (b : Backend) : List CategoryCount :=
  match b.scanAll with
  | .error _ => []
  | .ok recs =>
    let counts := recs.foldl (fun acc r =>
      match r.category with
      | some c => dictIncr acc c
      | none => acc) []
    (counts.insertionSort countGE).map fun p => ⟨p.1, p.2⟩

/-- Python truthiness of an optional string parameter: None and the empty
string are falsy, every other string is truthy. -/
def isTruthy : Option String → Bool
  | none => false
  | some s => if s = "" then false else true

/-- Result shape of advanced_filter_search.  The score is present only on
the ranked (vector) branch; the plain filtered scan is unranked. -/
structure AdvHit where
  word : String
  score : Option Rat
  category : Option String
  meaning : Option String
  synonyms : List String
  deriving DecidableEq

/-- Embeds advanced_filter_search (lines 232-298): build the optional
must-filter from the truthy arguments, then either a ranked similarity
search (when a query vector is given) or an unranked filtered scroll;
empty list when the backend raises. -/
def advanced_filter_search (b : Backend) (vector : Option (List Rat))
    (category meaning_keyword : Option String) (limit : Nat) : List AdvHit :=
  let mustCat : List Cond :=
    if isTruthy category then [.matchValue "category" (category.getD "")] else []
  let mustMean : List Cond :=
    if isTruthy meaning_keyword then [.matchText "meaning" (meaning_keyword.getD "")] else []
  let must := mustCat ++ mustMean
  let filt : Option (List Cond) := if must.isEmpty then none else some must
  match vector with
  | some v =>
    match b.search v filt limit with
    | .ok rs => rs.map fun r =>
        ⟨r.payload.word, some (round3 r.score), r.payload.category,
          r.payload.meaning, r.payload.synonyms⟩
    | .error _ => []
  | none =>
    match b.scroll filt limit with
    | .ok pts => pts.map fun p => ⟨p.word, none, p.category, p.meaning, p.synonyms⟩
    | .error _ => []

/-- Response of the advanced_search route on success. -/
structure AdvResponse where
  total_results : Nat
  results : List AdvHit
  deriving DecidableEq

/-- Embeds the advanced_search route (routes_words.py lines 210-251): the
request is rejected with status 400 when all three filters are falsy;
otherwise the optional query string is embedded and the combined filter
search result is returned. -/
def advanced_search (b : Backend) (embed : String → List Rat)
    (query category meaning_keyword : Option String) (limit : Nat) :
    Except Nat AdvResponse :=
  if !(isTruthy query || isTruthy category || isTruthy meaning_keyword) then
    .error 400
  else
    let vector := if isTruthy query then some (embed (query.getD "")) else none
    let results := advanced_filter_search b vector category meaning_keyword limit
    .ok ⟨results.length, results⟩

/-- Result list carried by a route response, empty on a rejection. -/
def resultsOf : Except Nat AdvResponse → List AdvHit
  | .ok r => r.results
  | .error _ => []

/-- Outcome of one attempt of the titling client against the external
text-generation service: a 200 response with its extracted content, a
non-success status, or a raised transport or parse exception. -/
inductive AttemptResult where
  | success (content : String)
  | httpError (status : Nat)
  | exn (msg : String)
  deriving DecidableEq

/-- Boolean success test on an attempt outcome. -/
def AttemptResult.isSuccess : AttemptResult → Bool
  | .success _ => true
  | _ => false

/-- Python str.strip on a character list: whitespace removed from both
ends. -/
def pyStrip (l : List Char) : List Char :=
  ((l.dropWhile Char.isWhitespace).reverse.dropWhile Char.isWhitespace).reverse

/-- Deterministic post-processing of a successful titling response
(clustring.py lines 129-132): strip surrounding whitespace, replace each
space with an underscore, keep only alphanumeric characters and
underscores.  The space replacement is a single-character substitution,
so it is modelled characterwise. -/
def sanitizeTitle (s : String) : String :=
  String.mk (((pyStrip s.toList).map (fun ch => if ch = ' ' then '_' else ch)).filter
    (fun ch => ch.isAlphanum || ch == '_'))

/-- Fallback title from the first three representative words (line 146).
Python indexes the list at 0, 1 and 2 without a guard, so a list with
fewer than three words raises IndexError; that raise is the error case. -/
def fallbackTitle (reps : List String) : Except String String :=
  match reps with
  | w0 :: w1 :: w2 :: _ => .ok ("Cluster_" ++ w0 ++ "_" ++ w1 ++ "_" ++ w2)
  | _ => .error "IndexError: list index out of range"

/-- Retry loop of the titling client: attempt numbered a is tried while
attempts remain; the first 200 response returns its sanitized content
immediately, any other outcome moves to the next attempt, and exhausting
the attempts falls back to the synthetic title. -/
def titleLoop (f : Nat → AttemptResult) (reps : List String) :
    Nat → Nat → Except String String
  | _, 0 => fallbackTitle reps
  | a, r + 1 =>
    match f a with
    | .success content => .ok (sanitizeTitle content)
    | _ => titleLoop f reps (a + 1) r

/-- Embeds generate_cluster_title_with_avalai (lines 87-146).  The
outcome of each numbered HTTP attempt is a parameter f, the prompt text
and the fixed inter-attempt delay having no bearing on the returned
value. -/
def generate_cluster_title_with_avalai (f : Nat → AttemptResult)
    (reps : List String) (max_retries : Nat) : Except String String :=
  titleLoop f reps 0 max_retries

/-- Squared Euclidean distance between two rational vectors.  Models
np.linalg.norm(v - c): the square root is strictly monotone on
nonnegative arguments, so all comparisons and sort orders agree. -/
def sqDist (u v : List Rat) : Rat :=
  (List.zipWith (fun a b => (a - b) * (a - b)) u v).sum

/-- One clustered word together with its distance to the centroid of its
cluster. -/
structure Member where
  word : String
  distance : Rat
  deriving DecidableEq

/-- Ordering of cluster members by ascending centroid distance. -/
def memberLE (a b : Member) : Prop := a.distance ≤ b.distance

instance : DecidableRel memberLE :=
  fun a b => inferInstanceAs (Decidable (a.distance ≤ b.distance))

instance : IsTotal Member memberLE :=
  ⟨fun a b => le_total a.distance b.distance⟩

instance : IsTrans Member memberLE :=
  ⟨fun _ _ _ h h2 => le_trans h h2⟩

/-- Python dict grouping step with insertion-order semantics: the member
is appended to the group of its label, a fresh label opening a new group
at the end. -/
def addToGroups (gs : List (Nat × List Member)) (lab : Nat) (m : Member) :
    List (Nat × List Member) :=
  match gs with
  | [] => [(lab, [m])]
  | (l, ms) :: rest =>
    if l = lab then (l, ms ++ [m]) :: rest else (l, ms) :: addToGroups rest lab m

/-- Embeds cluster_all_words (clustring.py lines 55-81) after the k-means
fit: each input word is paired with the label the fit assigned to its
vector and its distance to the centroid of that label, the pairs are
grouped by label in first-appearance order, and each group is sorted
ascending by distance with a stable sort (Python sorted). -/
def cluster_all_words (words : List String) (vectors : List (List Rat))
    (labels : List Nat) (centers : Nat → List Rat) : List (Nat × List Member) :=
  let entries := (words.zip (vectors.zip labels)).map
    (fun wvl => (wvl.2.2, Member.mk wvl.1 (sqDist wvl.2.1 (centers wvl.2.2))))
  let grouped := entries.foldl (fun gs e => addToGroups gs e.1 e.2) []
  grouped.map (fun g => (g.1, List.insertionSort memberLE g.2))

/-- One entry of the category snapshot (the persisted artifact of the
titling stage). -/
structure CatData where
  cluster_id : Int
  title : String
  representative_words : List String
  total_words : Nat
  sample_words : List String
  all_words : List String
  deriving DecidableEq

/-- The category snapshot: a Python dict from generated title to entry,
modelled as an association list with insertion-order semantics. -/
abbrev Snapshot := List (String × CatData)

/-- Python dict assignment: an existing key is overwritten in place, a
fresh key is appended. -/
def dictUpsert (d : Snapshot) (k : String) (v : CatData) : Snapshot :=
  match d with
  | [] => [(k, v)]
  | (k2, v2) :: rest =>
    if k2 = k then (k2, v) :: rest else (k2, v2) :: dictUpsert rest k v

/-- Snapshot entry construction for one cluster: the top_n closest words
are the representatives, the title is generated from them, and the entry
is stored under that title. -/
def assignStep (titleOf : List String → String) (top_n : Nat) (acc : Snapshot)
    (cl : Nat × List Member) : Snapshot :=
  let top_words := (cl.2.take top_n).map Member.word
  let category_title := titleOf top_words
  dictUpsert acc category_title
    ⟨Int.ofNat cl.1, category_title, top_words.take 15, cl.2.length,
      (cl.2.take 30).map Member.word, cl.2.map Member.word⟩

/-- Embeds assign_category_names_with_llm (lines 152-173): every cluster
is titled from its top_n representative words, and the snapshot entry is
stored under the generated title.  The titling call is the parameter
titleOf, one external text-generation interaction per cluster. -/
def assign_category_names_with_llm (titleOf : List String → String)
    (clusters : List (Nat × List Member)) (top_n : Nat) : Snapshot :=
  clusters.foldl (assignStep titleOf top_n) []

/-- Titles generated for a cluster list, in cluster order; the keys the
snapshot is built under. -/
def titlesOf (titleOf : List String → String)
    (clusters : List (Nat × List Member)) (top_n : Nat) : List String :=
  clusters.map (fun cl => titleOf ((cl.2.take top_n).map Member.word))

/-- Aggregate counters returned by the propagation stage. -/
structure Stats where
  total_updated : Nat
  total_failed : Nat
  categories_processed : Nat
  deriving DecidableEq

/-- Payload patch applied by set_payload: the category and cluster_id
keys are set, every other field of the record is kept. -/
def patchRec (name : String) (cid : Int) (r : WordRecord) : WordRecord :=
  { r with category := some name, cluster_id := some cid }

/-- Index of the first list element satisfying p, if any. -/
def firstIdx (p : α → Bool) : List α → Option Nat
  | [] => none
  | x :: xs => if p x then some 0 else (firstIdx p xs).map (· + 1)

/-- Default record used only to read a list position already known to be
in range. -/
def defaultRecord : WordRecord := ⟨0, "", none, [], none, none, []⟩

/-- Propagation of one word (qdrant_client.py lines 109-143): scroll with
limit 1 for the first record whose word matches, and when found patch its
category and cluster_id by id; the flag reports whether a record was
found. -/
def updateOneWord (recs : List WordRecord) (name : String) (cid : Int)
    (w : String) : List WordRecord × Bool :=
  match firstIdx (fun r => decide (r.word = w)) recs with
  | some j => (recs.set j (patchRec name cid (recs.getD j defaultRecord)), true)
  | none => (recs, false)

/-- Propagation of one word with its bookkeeping: a found word counts as
updated, a missing word as failed. -/
def wordStep (name : String) (cid : Int) (acc2 : List WordRecord × Stats)
    (w : String) : List WordRecord × Stats :=
  let step := updateOneWord acc2.1 name cid w
  if step.2 then
    (step.1, { acc2.2 with total_updated := acc2.2.total_updated + 1 })
  else
    (step.1, { acc2.2 with total_failed := acc2.2.total_failed + 1 })

/-- Inner loop of the propagation stage over the words of one category. -/
def updateCategoryWords (name : String) (cid : Int) (ws : List String)
    (acc : List WordRecord × Stats) : List WordRecord × Stats :=
  ws.foldl (wordStep name cid) acc

/-- Propagation of one snapshot entry: bump the category counter, then
patch each of its words in turn. -/
def categoryStep (acc2 : List WordRecord × Stats) (entry : String × CatData) :
    List WordRecord × Stats :=
  updateCategoryWords entry.1 entry.2.cluster_id entry.2.all_words
    (acc2.1, { acc2.2 with categories_processed := acc2.2.categories_processed + 1 })

/-- Outer loop of the propagation stage from an arbitrary accumulator. -/
def updateFrom (snap : Snapshot) (acc : List WordRecord × Stats) :
    List WordRecord × Stats :=
  snap.foldl categoryStep acc

/-- Embeds update_words_with_categories (lines 94-146): run the outer
loop from the zeroed statistics. -/
def update_words_with_categories (snap : Snapshot) (recs : List WordRecord) :
    List WordRecord × Stats :=
  updateFrom snap (recs, ⟨0, 0, 0⟩)

/-- One elementary propagation instruction: patch the first record whose
word matches with the given category name and cluster id. -/
structure Instr where
  name : String
  cid : Int
  word : String

/-- The propagation stage flattened to its instruction sequence, in
execution order. -/
def instrsOf (snap : Snapshot) : List Instr :=
  (snap.map (fun e => e.2.all_words.map (fun w => Instr.mk e.1 e.2.cluster_id w))).flatten

/-- Store effect of one instruction. -/
def applyInstr (recs : List WordRecord) (i : Instr) : List WordRecord :=
  (updateOneWord recs i.name i.cid i.word).1

/-- Store position an instruction writes, determined by the stored words
alone: the first position holding the matching word. -/
def writeIdx (w : List String) (i : Instr) : Option Nat :=
  firstIdx (fun s => decide (s = i.word)) w

/-- Last instruction of the sequence writing a given position, if any. -/
def lastWriter (l : List Instr) (w : List String) (j : Nat) : Option Instr :=
  l.foldl (fun acc i => if writeIdx w i = some j then some i else acc) none

/-- Embeds fetch_all_words_from_qdrant (clustring.py lines 20-49): the
exhaustive scan produces the word and vector of every stored record, in
store order. -/
def fetch_all_words_from_qdrant (store : List WordRecord) :
    List String × List (List Rat) :=
  (store.map WordRecord.word, store.map WordRecord.vector)

/-- Observable outcome of one orchestrator run: the snapshot written (if
any), the final store, and the propagation statistics (if propagation
ran). -/
structure MainOutcome where
  savedSnapshot : Option Snapshot
  finalStore : List WordRecord
  stats : Option Stats
  deriving DecidableEq

/-- Embeds the orchestrator main (clustring.py lines 206-234): fetch the
population, abort as a no-op when it is empty, otherwise cluster with the
external fit output (labels, centers), title every cluster, persist the
snapshot, and propagate the categories into the store. -/
def main (store : List WordRecord) (labels : List Nat)
    (centers : Nat → List Rat) (titleOf : List String → String) : MainOutcome :=
  let fetched := fetch_all_words_from_qdrant store
  if fetched.1.length = 0 then
    ⟨none, store, none⟩
  else
    let clusters := cluster_all_words fetched.1 fetched.2 labels centers
    let categorized := assign_category_names_with_llm titleOf clusters 45
    let updated := update_words_with_categories categorized store
    ⟨some categorized, updated.1, some updated.2⟩

/-- Small concrete store used to exercise the query layer on a healthy
backend: one categorized animal and one categorized vehicle. -/
def demoRecs : List WordRecord :=
  [⟨1, "cat", some "feline pet", [], some "Animals", some 0, []⟩,
   ⟨2, "car", some "motor vehicle", [], some "Vehicles", some 1, []⟩]

/-! ## Helper lemmas: titling client -/

/-- When every remaining attempt fails, the retry loop falls through to
the synthetic fallback title. -/
theorem titleLoop_all_fail (f : Nat → AttemptResult) (reps : List String) :
    ∀ (r a : Nat), (∀ i, i < r → (f (a + i)).isSuccess = false) →
      titleLoop f reps a r = fallbackTitle reps := by
  intro r
  induction r with
  | zero => intro a _; rfl
  | succ r ih =>
    intro a h
    have h0 : (f a).isSuccess = false := by simpa using h 0 (Nat.succ_pos r)
    have hrec : ∀ i, i < r → (f ((a + 1) + i)).isSuccess = false := by
      intro i hi
      have h2 := h (1 + i) (by omega)
      have he : a + (1 + i) = (a + 1) + i := by omega
      rw [he] at h2
      exact h2
    cases hf : f a with
    | success c => rw [hf] at h0; simp [AttemptResult.isSuccess] at h0
    | httpError s => simp only [titleLoop, hf]; exact ih (a + 1) hrec
    | exn m => simp only [titleLoop, hf]; exact ih (a + 1) hrec

/-- The retry loop returns the sanitized content of the first successful
attempt, ignoring every later attempt. -/
theorem titleLoop_first_success (f : Nat → AttemptResult) (reps : List String)
    (c : String) :
    ∀ (k r a : Nat), k < r → (∀ i, i < k → (f (a + i)).isSuccess = false) →
      f (a + k) = .success c →
      titleLoop f reps a r = .ok (sanitizeTitle c) := by
  intro k
  induction k with
  | zero =>
    intro r a hk _ hsucc
    match r, hk with
    | r + 1, _ =>
      have hf : f a = .success c := by simpa using hsucc
      simp only [titleLoop, hf]
  | succ k ih =>
    intro r a hk hbefore hsucc
    match r, hk with
    | r + 1, hk =>
      have h0 : (f a).isSuccess = false := by simpa using hbefore 0 (Nat.succ_pos k)
      have hb : ∀ i, i < k → (f ((a + 1) + i)).isSuccess = false := by
        intro i hi
        have h2 := hbefore (1 + i) (by omega)
        have he : a + (1 + i) = (a + 1) + i := by omega
        rw [he] at h2
        exact h2
      have hs : f ((a + 1) + k) = .success c := by
        have he : a + (k + 1) = (a + 1) + k := by omega
        rw [he] at hsucc
        exact hsucc
      cases hf : f a with
      | success d => rw [hf] at h0; simp [AttemptResult.isSuccess] at h0
      | httpError s => simp only [titleLoop, hf]; exact ih r (a + 1) (by omega) hb hs
      | exn m => simp only [titleLoop, hf]; exact ih r (a + 1) (by omega) hb hs

/-- Every character surviving sanitization is alphanumeric or the
underscore separator; in particular no space survives. -/
theorem sanitizeTitle_chars (s : String) :
    ∀ ch ∈ (sanitizeTitle s).toList, (ch.isAlphanum || ch == '_') = true ∧ ch ≠ ' ' := by
  intro ch hch
  have hmem : ch ∈ ((pyStrip s.toList).map fun c0 => if c0 = ' ' then '_' else c0).filter
      (fun c0 => c0.isAlphanum || c0 == '_') := hch
  have hp := (List.mem_filter.mp hmem).2
  refine ⟨hp, ?_⟩
  rintro rfl
  exact absurd hp (by decide)

/-! ## Claim C1 -/

/-- C1 counterexample: on backend failure, search_similar returns None,
not an empty sequence, so the claim as stated is false. -/
theorem C1_counterexample :
    search_similar (failingBackend "backend down") [] 3 ≠ some ([] : List ScoredPoint)
    ∧ search_similar (failingBackend "backend down") [] 3 = none := by
  exact ⟨by decide, rfl⟩

/-- C1 (amended): on backend failure no read operation raises; the three
category-layer reads (search_by_category, get_all_categories,
advanced_filter_search) return an empty list, while search_similar and
hybrid_search return None. -/
theorem C1_read_paths_never_raise (msg : String) (v : List Rat) (k : String)
    (cat : String) (vec2 : Option (List Rat)) (c mk : Option String) (limit : Nat) :
    search_similar (failingBackend msg) v limit = none
    ∧ hybrid_search (failingBackend msg) v k limit = none
    ∧ search_by_category (failingBackend msg) v cat limit = []
    ∧ get_all_categories (failingBackend msg) = []
    ∧ advanced_filter_search (failingBackend msg) vec2 c mk limit = [] := by
  refine ⟨rfl, rfl, rfl, rfl, ?_⟩
  cases vec2 <;> rfl

/-! ## Claim C4 -/

/-- C4 counterexample: with only one representative word and every
attempt failing, the titling operation does not return the fallback
title; it raises IndexError building it, so the claim as stated (for
every list of representative words) is false. -/
theorem C4_counterexample :
    generate_cluster_title_with_avalai (fun _ => .httpError 500) ["alpha"] 3
      = .error "IndexError: list index out of range" := rfl

/-- C4 (amended): for every list of at least three representative words,
if every one of the max_retries attempts fails, the titling operation
returns the deterministic fallback title built from the first three
representative words. -/
theorem C4_all_attempts_fail_fallback (f : Nat → AttemptResult)
    (reps : List String) (maxr : Nat)
    (h3 : 3 ≤ reps.length)
    (hfail : ∀ i, i < maxr → (f i).isSuccess = false) :
    generate_cluster_title_with_avalai f reps maxr
      = .ok ("Cluster_" ++ reps.getD 0 "" ++ "_" ++ reps.getD 1 "" ++ "_" ++ reps.getD 2 "") := by
  have hloop := titleLoop_all_fail f reps maxr 0 (by simpa using hfail)
  rw [generate_cluster_title_with_avalai, hloop]
  match reps, h3 with
  | w0 :: w1 :: w2 :: rest, _ => rfl

/-- C4 witness: a four-word list with a backend failing all three
attempts yields the fallback title. -/
theorem C4_witness :
    3 ≤ (["alpha", "beta", "gamma", "delta"] : List String).length
    ∧ generate_cluster_title_with_avalai (fun _ => AttemptResult.httpError 500)
        ["alpha", "beta", "gamma", "delta"] 3 = .ok "Cluster_alpha_beta_gamma" := by
  refine ⟨by decide, ?_⟩
  rw [C4_all_attempts_fail_fallback (fun _ => AttemptResult.httpError 500)
    ["alpha", "beta", "gamma", "delta"] 3 (by decide) (fun i _ => rfl)]
  rfl

/-! ## Claim C5 -/

/-- C5: the retry loop stops at the first successful attempt and returns
its content deterministically post-processed; the returned title has only
alphanumeric characters and the separator, and no spaces. -/
theorem C5_success_title_sanitized (f : Nat → AttemptResult) (reps : List String)
    (maxr k : Nat) (c : String)
    (hk : k < maxr)
    (hbefore : ∀ i, i < k → (f i).isSuccess = false)
    (hsucc : f k = .success c) :
    generate_cluster_title_with_avalai f reps maxr = .ok (sanitizeTitle c)
    ∧ ∀ ch ∈ (sanitizeTitle c).toList, (ch.isAlphanum || ch == '_') = true ∧ ch ≠ ' ' := by
  constructor
  · exact titleLoop_first_success f reps c k maxr 0 hk (by simpa using hbefore)
      (by simpa using hsucc)
  · exact sanitizeTitle_chars c

/-- C5 witness: success on the final attempt returns that response
sanitized. -/
theorem C5_witness :
    ((fun i => if i = 2 then AttemptResult.success " My Title! "
        else AttemptResult.httpError 500) 2 = AttemptResult.success " My Title! ")
    ∧ generate_cluster_title_with_avalai
        (fun i => if i = 2 then AttemptResult.success " My Title! "
          else AttemptResult.httpError 500) ["word"] 3 = .ok "My_Title" := by
  refine ⟨rfl, ?_⟩
  rw [(C5_success_title_sanitized
    (fun i => if i = 2 then AttemptResult.success " My Title! "
      else AttemptResult.httpError 500)
    ["word"] 3 2 " My Title! " (by decide) (by decide) rfl).1]
  rfl

/-! ## Claim C9 -/

/-- C9: when the fetch stage finds zero stored words the orchestrator
aborts as a no-op: no snapshot is written, the store is unchanged, and no
propagation statistics are produced. -/
theorem C9_empty_population_abort (store : List WordRecord) (labels : List Nat)
    (centers : Nat → List Rat) (titleOf : List String → String)
    (h : (fetch_all_words_from_qdrant store).1.length = 0) :
    main store labels centers titleOf = ⟨none, store, none⟩ := by
  have h2 : (store.map WordRecord.word).length = 0 := h
  simp [main, fetch_all_words_from_qdrant, h2]

/-- C9 witness: the empty store aborts as a no-op. -/
theorem C9_witness :
    (fetch_all_words_from_qdrant []).1.length = 0
    ∧ main [] [] (fun _ => []) (fun _ => "T") = ⟨none, [], none⟩ :=
  ⟨rfl, C9_empty_population_abort [] [] (fun _ => []) (fun _ => "T") rfl⟩

/-! ## Helper lemmas: combined filter search -/

/-- On a healthy backend, a category-only combined search is the plain
unranked filtered scan. -/
theorem advanced_filter_search_category_eq (recs : List WordRecord)
    (scoreOf : List Rat → WordRecord → Rat) (cat : String) (limit : Nat)
    (hcat : cat ≠ "") :
    advanced_filter_search (storeBackend recs scoreOf) none (some cat) none limit
      = ((recs.filter (matchesFilter (some [Cond.matchValue "category" cat]))).take
          limit).map (fun p => ⟨p.word, none, p.category, p.meaning, p.synonyms⟩) := by
  simp [advanced_filter_search, storeBackend, isTruthy, hcat]

/-- On a healthy backend, a category-only route call returns exactly the
combined filter search results. -/
theorem resultsOf_advanced_search_category (recs : List WordRecord)
    (scoreOf : List Rat → WordRecord → Rat) (embed : String → List Rat)
    (cat : String) (limit : Nat) (hcat : cat ≠ "") :
    resultsOf (advanced_search (storeBackend recs scoreOf) embed
        none (some cat) none limit)
      = advanced_filter_search (storeBackend recs scoreOf) none (some cat) none limit := by
  simp [advanced_search, resultsOf, isTruthy, hcat]

/-- The route rejects with status 400 exactly when all three filters are
falsy. -/
theorem advanced_search_reject_iff (b : Backend) (embed : String → List Rat)
    (q c mk : Option String) (limit : Nat) :
    (advanced_search b embed q c mk limit = .error 400)
      ↔ (isTruthy q = false ∧ isTruthy c = false ∧ isTruthy mk = false) := by
  rw [advanced_search]
  by_cases hq : isTruthy q <;> by_cases hc : isTruthy c <;> by_cases hmk : isTruthy mk <;>
    simp [hq, hc, hmk]

/-! ## Claim C7 -/

/-- C7: the combined-filter route rejects with a caller-visible 400 error
exactly when all three filters are absent, and a category-only request
returns an unranked list every member of which has the requested
category. -/
theorem C7_advanced_search_filters (recs : List WordRecord)
    (scoreOf : List Rat → WordRecord → Rat) (embed : String → List Rat)
    (q c mk : Option String) (limit : Nat) (cat : String) (hit : AdvHit)
    (hcat : cat ≠ "")
    (hmem : hit ∈ resultsOf (advanced_search (storeBackend recs scoreOf) embed
      none (some cat) none limit)) :
    ((advanced_search (storeBackend recs scoreOf) embed q c mk limit = .error 400)
      ↔ (isTruthy q = false ∧ isTruthy c = false ∧ isTruthy mk = false))
    ∧ hit.category = some cat ∧ hit.score = none := by
  refine ⟨advanced_search_reject_iff _ embed q c mk limit, ?_⟩
  rw [resultsOf_advanced_search_category recs scoreOf embed cat limit hcat,
    advanced_filter_search_category_eq recs scoreOf cat limit hcat] at hmem
  obtain ⟨p, hp, rfl⟩ := List.mem_map.mp hmem
  have hpf := List.mem_of_mem_take hp
  have hmatch := (List.mem_filter.mp hpf).2
  simp only [matchesFilter, List.all_cons, List.all_nil, Bool.and_true, condMatches,
    eq_self_iff_true, if_true, decide_eq_true_eq] at hmatch
  exact ⟨hmatch, rfl⟩

/-- C7 witness: on a two-record store, the all-absent request is rejected
and the category-only request returns the animal record unranked. -/
theorem C7_witness :
    (("Animals" : String) ≠ "")
    ∧ (⟨"cat", none, some "Animals", some "feline pet", []⟩ : AdvHit)
        ∈ resultsOf (advanced_search (storeBackend demoRecs (fun _ _ => 0))
          (fun _ => []) none (some "Animals") none 10)
    ∧ ((advanced_search (storeBackend demoRecs (fun _ _ => 0)) (fun _ => [])
          none none none 10 = .error 400)
        ↔ (isTruthy none = false ∧ isTruthy none = false ∧ isTruthy none = false))
    ∧ (⟨"cat", none, some "Animals", some "feline pet", []⟩ : AdvHit).category
        = some "Animals"
    ∧ (⟨"cat", none, some "Animals", some "feline pet", []⟩ : AdvHit).score = none := by
  have h := C7_advanced_search_filters demoRecs (fun _ _ => 0) (fun _ => [])
    none none none 10 "Animals" ⟨"cat", none, some "Animals", some "feline pet", []⟩
    (by decide) (by decide)
  exact ⟨by decide, by decide, h.1, h.2.1, h.2.2⟩

/-! ## Helper lemmas: snapshot construction -/

/-- Upserting a fresh key appends the binding at the end of the dict. -/
theorem dictUpsert_not_mem (d : Snapshot) (k : String) (v : CatData)
    (h : k ∉ d.map Prod.fst) : dictUpsert d k v = d ++ [(k, v)] := by
  induction d with
  | nil => rfl
  | cons e rest ih =>
    obtain ⟨k2, v2⟩ := e
    simp only [List.map_cons, List.mem_cons] at h
    push_neg at h
    obtain ⟨h1, h2⟩ := h
    simp only [dictUpsert]
    rw [if_neg (fun he => h1 he.symm), ih h2]
    rfl

/-- Folding the snapshot construction over clusters with pairwise fresh
distinct titles adds exactly one entry per cluster. -/
theorem assign_length_aux (titleOf : List String → String) (top_n : Nat) :
    ∀ (clusters : List (Nat × List Member)) (acc : Snapshot),
      (titlesOf titleOf clusters top_n).Nodup →
      (∀ t ∈ titlesOf titleOf clusters top_n, t ∉ acc.map Prod.fst) →
      (clusters.foldl (assignStep titleOf top_n) acc).length
        = acc.length + clusters.length := by
  intro clusters
  induction clusters with
  | nil => intro acc _ _; rfl
  | cons cl cls ih =>
    intro acc hnodup hfresh
    have hton : titlesOf titleOf (cl :: cls) top_n
        = titleOf ((cl.2.take top_n).map Member.word) :: titlesOf titleOf cls top_n := rfl
    rw [hton] at hnodup hfresh
    have hhead := hfresh _ (List.mem_cons_self _ _)
    have hns := List.nodup_cons.mp hnodup
    have hstep : assignStep titleOf top_n acc cl
        = acc ++ [(titleOf ((cl.2.take top_n).map Member.word),
            ⟨Int.ofNat cl.1, titleOf ((cl.2.take top_n).map Member.word),
              ((cl.2.take top_n).map Member.word).take 15, cl.2.length,
              (cl.2.take 30).map Member.word, cl.2.map Member.word⟩)] :=
      dictUpsert_not_mem acc _ _ hhead
    have hfresh2 : ∀ t ∈ titlesOf titleOf cls top_n,
        t ∉ (assignStep titleOf top_n acc cl).map Prod.fst := by
      intro t ht
      rw [hstep]
      simp only [List.map_append, List.map_cons, List.map_nil, List.mem_append,
        List.mem_cons, List.not_mem_nil]
      push_neg
      refine ⟨hfresh t (List.mem_cons_of_mem _ ht), ?_, fun hf => hf⟩
      intro he
      exact hns.1 (he ▸ ht)
    have hlen : (assignStep titleOf top_n acc cl).length = acc.length + 1 := by
      rw [hstep, List.length_append, List.length_cons, List.length_nil]
    have := ih (assignStep titleOf top_n acc cl) hns.2 hfresh2
    rw [List.foldl_cons, this, hlen, List.length_cons]
    omega

/-! ## Claim C8 -/

/-- C8 counterexample: two clusters whose titling produces the same title
collapse onto one snapshot entry, so entry count can differ from cluster
count. -/
theorem C8_counterexample :
    (assign_category_names_with_llm (fun _ => "Theme")
        [(0, [⟨"alpha", 0⟩]), (1, [⟨"beta", 0⟩])] 45).length = 1
    ∧ ([(0, [(⟨"alpha", 0⟩ : Member)]), (1, [⟨"beta", 0⟩])]
        : List (Nat × List Member)).length = 2 :=
  ⟨rfl, rfl⟩

/-- C8 (amended): whenever the generated titles are pairwise distinct,
the snapshot produced by the titling stage has exactly one entry per
cluster, so the entry count equals the cluster count. -/
theorem C8_snapshot_entry_per_cluster (titleOf : List String → String)
    (clusters : List (Nat × List Member)) (top_n : Nat)
    (hnodup : (titlesOf titleOf clusters top_n).Nodup) :
    (assign_category_names_with_llm titleOf clusters top_n).length
      = clusters.length := by
  have := assign_length_aux titleOf top_n clusters [] hnodup (by simp)
  simpa [assign_category_names_with_llm] using this

/-- C8 witness: two clusters with distinct generated titles give a
two-entry snapshot. -/
theorem C8_witness :
    (titlesOf (fun ws => ws.headD "none")
        [(0, [⟨"alpha", 0⟩]), (1, [⟨"beta", 0⟩])] 45).Nodup
    ∧ (assign_category_names_with_llm (fun ws => ws.headD "none")
        [(0, [⟨"alpha", 0⟩]), (1, [⟨"beta", 0⟩])] 45).length
      = ([(0, [(⟨"alpha", 0⟩ : Member)]), (1, [⟨"beta", 0⟩])]
          : List (Nat × List Member)).length :=
  ⟨by decide, C8_snapshot_entry_per_cluster _ _ _ (by decide)⟩

/-! ## Helper lemmas: propagation statistics -/

/-- One word of propagation never touches the category counter and bumps
exactly one of the updated and failed counters. -/
theorem wordStep_stats (name : String) (cid : Int)
    (acc : List WordRecord × Stats) (w : String) :
    (wordStep name cid acc w).2.categories_processed = acc.2.categories_processed
    ∧ (wordStep name cid acc w).2.total_updated + (wordStep name cid acc w).2.total_failed
      = acc.2.total_updated + acc.2.total_failed + 1 := by
  by_cases h : (updateOneWord acc.1 name cid w).2 = true <;>
    simp [wordStep, h] <;> omega

/-- The inner propagation loop leaves the category counter unchanged and
adds the word count to the updated plus failed total. -/
theorem updateCategoryWords_stats (name : String) (cid : Int) :
    ∀ (ws : List String) (acc : List WordRecord × Stats),
      (updateCategoryWords name cid ws acc).2.categories_processed
          = acc.2.categories_processed
      ∧ (updateCategoryWords name cid ws acc).2.total_updated
          + (updateCategoryWords name cid ws acc).2.total_failed
        = acc.2.total_updated + acc.2.total_failed + ws.length := by
  intro ws
  induction ws with
  | nil => intro acc; exact ⟨rfl, by simp [updateCategoryWords]⟩
  | cons w ws ih =>
    intro acc
    have hcons : updateCategoryWords name cid (w :: ws) acc
        = updateCategoryWords name cid ws (wordStep name cid acc w) := rfl
    obtain ⟨ihc, ihs⟩ := ih (wordStep name cid acc w)
    obtain ⟨wc, wsum⟩ := wordStep_stats name cid acc w
    rw [hcons]
    refine ⟨ihc.trans wc, ?_⟩
    rw [ihs, wsum, List.length_cons]
    omega

/-- The outer propagation loop adds one processed category per snapshot
entry and the total word count to the updated plus failed total. -/
theorem updateFrom_stats :
    ∀ (snap : Snapshot) (acc : List WordRecord × Stats),
      (updateFrom snap acc).2.categories_processed
          = acc.2.categories_processed + snap.length
      ∧ (updateFrom snap acc).2.total_updated + (updateFrom snap acc).2.total_failed
        = acc.2.total_updated + acc.2.total_failed
            + (snap.map (fun e => e.2.all_words.length)).sum := by
  intro snap
  induction snap with
  | nil => intro acc; exact ⟨rfl, by simp [updateFrom]⟩
  | cons e snap ih =>
    intro acc
    have hcons : updateFrom (e :: snap) acc = updateFrom snap (categoryStep acc e) := rfl
    obtain ⟨cc, csum⟩ := updateCategoryWords_stats e.1 e.2.cluster_id e.2.all_words
      (acc.1, { acc.2 with categories_processed := acc.2.categories_processed + 1 })
    obtain ⟨ihc, ihs⟩ := ih (categoryStep acc e)
    rw [hcons]
    constructor
    · rw [ihc]
      have : (categoryStep acc e).2.categories_processed
          = acc.2.categories_processed + 1 := by
        simpa [categoryStep] using cc
      rw [this, List.length_cons]
      omega
    · rw [ihs]
      have : (categoryStep acc e).2.total_updated + (categoryStep acc e).2.total_failed
          = acc.2.total_updated + acc.2.total_failed + e.2.all_words.length := by
        simpa [categoryStep] using csum
      rw [List.map_cons, List.sum_cons]
      omega

/-! ## Claim C10 -/

/-- C10: the propagation statistics satisfy the invariant that
categories_processed equals the number of snapshot entries and that every
word of every entry contributes to exactly one of total_updated and
total_failed, their sum being the total word count of the snapshot. -/
theorem C10_propagation_stats (snap : Snapshot) (recs : List WordRecord) :
    (update_words_with_categories snap recs).2.categories_processed = snap.length
    ∧ (update_words_with_categories snap recs).2.total_updated
        + (update_words_with_categories snap recs).2.total_failed
      = (snap.map (fun e => e.2.all_words.length)).sum := by
  obtain ⟨hc, hs⟩ := updateFrom_stats snap (recs, ⟨0, 0, 0⟩)
  exact ⟨by simpa using hc, by simpa using hs⟩

/-! ## Helper lemmas: cluster grouping -/

/-- Adding one member to its group preserves the member population,
up to order. -/
theorem addToGroups_members (gs : List (Nat × List Member)) (lab : Nat) (m : Member) :
    (((addToGroups gs lab m).map Prod.snd).flatten).Perm
      ((gs.map Prod.snd).flatten ++ [m]) := by
  induction gs with
  | nil => simp [addToGroups]
  | cons g rest ih =>
    obtain ⟨l, ms⟩ := g
    by_cases h : l = lab
    · subst h
      simp only [addToGroups, eq_self_iff_true, if_true, List.map_cons, List.flatten_cons,
        List.append_assoc]
      exact List.Perm.append_left ms List.perm_append_comm
    · simp only [addToGroups, if_neg h, List.map_cons, List.flatten_cons]
      rw [List.append_assoc]
      exact List.Perm.append_left ms ih

/-- Folding the grouping step collects exactly the members of the
processed entries, up to order. -/
theorem foldl_addToGroups_members :
    ∀ (entries : List (Nat × Member)) (gs : List (Nat × List Member)),
      (((entries.foldl (fun gs2 e => addToGroups gs2 e.1 e.2) gs).map Prod.snd).flatten).Perm
        ((gs.map Prod.snd).flatten ++ entries.map Prod.snd) := by
  intro entries
  induction entries with
  | nil => intro gs; simp
  | cons e es ih =>
    intro gs
    simp only [List.foldl_cons, List.map_cons]
    refine (ih (addToGroups gs e.1 e.2)).trans ?_
    refine ((addToGroups_members gs e.1 e.2).append_right (es.map Prod.snd)).trans ?_
    rw [List.append_assoc]
    exact List.Perm.refl _

/-- Sorting every group preserves the member population, up to order. -/
theorem sortGroups_members (gs : List (Nat × List Member)) :
    (((gs.map (fun g => (g.1, List.insertionSort memberLE g.2))).map Prod.snd).flatten).Perm
      ((gs.map Prod.snd).flatten) := by
  induction gs with
  | nil => simp
  | cons g rest ih =>
    simp only [List.map_cons, List.flatten_cons]
    exact (List.perm_insertionSort memberLE g.2).append ih

/-! ## Claim C2 -/

/-- C2: for matching-length inputs (one label per vector, one vector per
word, as the k-means fit guarantees), the clustering operation assigns
every input word to exactly one cluster: the concatenation of all member
word lists is a permutation of the input word list, so no word is lost
and none is duplicated. -/
theorem C2_clustering_partition (words : List String) (vectors : List (List Rat))
    (labels : List Nat) (centers : Nat → List Rat)
    (hwv : words.length = vectors.length) (hvl : vectors.length = labels.length) :
    (((cluster_all_words words vectors labels centers).map
        (fun g => g.2.map Member.word)).flatten).Perm words := by
  have key : ∀ (L : List (Nat × List Member)),
      (L.map (fun g => g.2.map Member.word)).flatten
        = List.map Member.word ((L.map Prod.snd).flatten) := by
    intro L
    rw [List.map_flatten, List.map_map]
    rfl
  rw [show cluster_all_words words vectors labels centers
      = (((words.zip (vectors.zip labels)).map
          (fun wvl => (wvl.2.2, Member.mk wvl.1 (sqDist wvl.2.1 (centers wvl.2.2))))).foldl
            (fun gs e => addToGroups gs e.1 e.2) []).map
          (fun g => (g.1, List.insertionSort memberLE g.2)) from rfl]
  rw [key]
  have h1 := sortGroups_members (((words.zip (vectors.zip labels)).map
    (fun wvl => (wvl.2.2, Member.mk wvl.1 (sqDist wvl.2.1 (centers wvl.2.2))))).foldl
      (fun gs e => addToGroups gs e.1 e.2) [])
  have h2 := foldl_addToGroups_members ((words.zip (vectors.zip labels)).map
    (fun wvl => (wvl.2.2, Member.mk wvl.1 (sqDist wvl.2.1 (centers wvl.2.2))))) []
  simp only [List.map_nil, List.flatten_nil, List.nil_append] at h2
  refine ((h1.trans h2).map Member.word).trans ?_
  have h4 : List.map Member.word (((words.zip (vectors.zip labels)).map
      (fun wvl => (wvl.2.2, Member.mk wvl.1 (sqDist wvl.2.1 (centers wvl.2.2))))).map Prod.snd)
      = List.map Prod.fst (words.zip (vectors.zip labels)) := by
    simp only [List.map_map]
    rfl
  rw [h4, List.map_fst_zip words (vectors.zip labels) (by rw [List.length_zip]; omega)]

/-- C2 witness: three words, two landing in cluster 0 and one in
cluster 1, are partitioned without loss or duplication. -/
theorem C2_witness :
    ((["cat", "dog", "car"] : List String).length = ([[], [], []] : List (List Rat)).length)
    ∧ (([[], [], []] : List (List Rat)).length = ([0, 0, 1] : List Nat).length)
    ∧ (((cluster_all_words ["cat", "dog", "car"] [[], [], []] [0, 0, 1] (fun _ => [])).map
        (fun g => g.2.map Member.word)).flatten).Perm ["cat", "dog", "car"] :=
  ⟨rfl, rfl, C2_clustering_partition _ _ _ _ rfl rfl⟩

/-! ## Claim C3 -/

/-- C3: every cluster produced by the clustering operation has its member
list sorted non-decreasing by distance to the cluster centroid. -/
theorem C3_members_sorted (words : List String) (vectors : List (List Rat))
    (labels : List Nat) (centers : Nat → List Rat) (g : Nat × List Member)
    (hg : g ∈ cluster_all_words words vectors labels centers) :
    List.Sorted memberLE g.2 := by
  obtain ⟨g0, hg0, rfl⟩ := List.mem_map.mp hg
  exact List.sorted_insertionSort memberLE g0.2

/-- C3 witness: a concrete two-word cluster is sorted by distance. -/
theorem C3_witness :
    ((0, [(⟨"cat", 0⟩ : Member), ⟨"dog", 0⟩])
        ∈ cluster_all_words ["cat", "dog"] [[], []] [0, 0] (fun _ => []))
    ∧ List.Sorted memberLE [(⟨"cat", 0⟩ : Member), ⟨"dog", 0⟩] :=
  ⟨by decide, C3_members_sorted ["cat", "dog"] [[], []] [0, 0] (fun _ => [])
    (0, [⟨"cat", 0⟩, ⟨"dog", 0⟩]) (by decide)⟩

/-! ## Helper lemmas: first-index search -/

/-- Searching a mapped list is searching the original list with the
composed predicate. -/
theorem firstIdx_map (f : α → β) (p : β → Bool) :
    ∀ (l : List α), firstIdx p (l.map f) = firstIdx (fun a => p (f a)) l := by
  intro l
  induction l with
  | nil => rfl
  | cons x xs ih =>
    simp only [List.map_cons, firstIdx]
    rw [ih]

/-- A found index is in range. -/
theorem firstIdx_lt_length (p : α → Bool) :
    ∀ (l : List α) (j : Nat), firstIdx p l = some j → j < l.length := by
  intro l
  induction l with
  | nil => intro j h; cases h
  | cons x xs ih =>
    intro j h
    by_cases hp : p x = true
    · simp only [firstIdx, if_pos hp] at h
      cases h
      simp
    · simp only [firstIdx, if_neg hp] at h
      cases hfx : firstIdx p xs with
      | none => rw [hfx] at h; cases h
      | some k =>
        rw [hfx] at h
        have h2 : k + 1 = j := by simpa using h
        have := ih k hfx
        simp only [List.length_cons]
        omega

/-- No index is found exactly when no element satisfies the predicate. -/
theorem firstIdx_none_iff (p : α → Bool) :
    ∀ (l : List α), firstIdx p l = none ↔ ∀ x ∈ l, p x = false := by
  intro l
  induction l with
  | nil => simp [firstIdx]
  | cons x xs ih =>
    by_cases hp : p x = true
    · simp [firstIdx, hp]
    · have hp2 : p x = false := eq_false_of_ne_true hp
      simp [firstIdx, hp2, ih]

/-! ## Helper lemmas: single-word propagation -/

/-- The word lookup fails exactly when the word is absent from the
store. -/
theorem find_word_none_iff (recs : List WordRecord) (w : String) :
    firstIdx (fun r => decide (r.word = w)) recs = none ↔ w ∉ wordsOf recs := by
  rw [firstIdx_none_iff]
  simp only [wordsOf, List.mem_map, decide_eq_false_iff_not]
  constructor
  · intro h hx
    obtain ⟨r, hr, hrw⟩ := hx
    exact h r hr hrw
  · intro h r hr hrw
    exact h ⟨r, hr, hrw⟩

/-- The found flag of one word propagation is word membership in the
store. -/
theorem updateOneWord_found (recs : List WordRecord) (name : String) (cid : Int)
    (w : String) :
    (updateOneWord recs name cid w).2 = true ↔ w ∈ wordsOf recs := by
  cases hf : firstIdx (fun r => decide (r.word = w)) recs with
  | none =>
    have hnot := (find_word_none_iff recs w).mp hf
    simp [updateOneWord, hf, hnot]
  | some k =>
    have hmem : w ∈ wordsOf recs := by
      by_contra hmem
      rw [← find_word_none_iff recs w] at hmem
      rw [hmem] at hf
      cases hf
    simp [updateOneWord, hf, hmem]

/-- Pointwise effect of one word propagation on the store: the first
position holding the word (an index determined by the stored words alone)
is patched, every other position is untouched. -/
theorem updateOneWord_getElem? (recs : List WordRecord) (name : String) (cid : Int)
    (w : String) (j : Nat) :
    ((updateOneWord recs name cid w).1)[j]?
      = if firstIdx (fun s => decide (s = w)) (wordsOf recs) = some j
        then (recs[j]?).map (patchRec name cid) else recs[j]? := by
  have hmap : firstIdx (fun s => decide (s = w)) (wordsOf recs)
      = firstIdx (fun r => decide (r.word = w)) recs := by
    rw [wordsOf, firstIdx_map]
  rw [hmap]
  cases hf : firstIdx (fun r => decide (r.word = w)) recs with
  | none =>
    simp only [updateOneWord, hf]
    rw [if_neg (by simp)]
  | some k =>
    simp only [updateOneWord, hf]
    have hk : k < recs.length := firstIdx_lt_length _ recs k hf
    rw [List.getElem?_set]
    by_cases hkj : k = j
    · subst hkj
      rw [if_pos rfl, if_pos hk, if_pos rfl]
      rw [List.getD_eq_getElem?_getD, List.getElem?_eq_getElem hk]
      rfl
    · rw [if_neg hkj, if_neg (fun hc => hkj (Option.some.inj hc))]

/-- One word propagation never changes the stored words. -/
theorem updateOneWord_words (recs : List WordRecord) (name : String) (cid : Int)
    (w : String) :
    wordsOf ((updateOneWord recs name cid w).1) = wordsOf recs := by
  apply List.ext_getElem?
  intro j
  simp only [wordsOf, List.getElem?_map]
  rw [show ((updateOneWord recs name cid w).1)[j]?
      = if firstIdx (fun s => decide (s = w)) (recs.map WordRecord.word) = some j
        then (recs[j]?).map (patchRec name cid) else recs[j]?
    from updateOneWord_getElem? recs name cid w j]
  by_cases h : firstIdx (fun s => decide (s = w)) (recs.map WordRecord.word) = some j
  · rw [if_pos h, Option.map_map]
    cases recs[j]? <;> rfl
  · rw [if_neg h]

/-! ## Helper lemmas: instruction semantics -/

/-- Pointwise effect of one instruction. -/
theorem applyInstr_getElem? (recs : List WordRecord) (i : Instr) (j : Nat) :
    (applyInstr recs i)[j]? = if writeIdx (wordsOf recs) i = some j
      then (recs[j]?).map (patchRec i.name i.cid) else recs[j]? :=
  updateOneWord_getElem? recs i.name i.cid i.word j

/-- One instruction never changes the stored words. -/
theorem applyInstr_words (recs : List WordRecord) (i : Instr) :
    wordsOf (applyInstr recs i) = wordsOf recs :=
  updateOneWord_words recs i.name i.cid i.word

/-- A whole instruction sequence never changes the stored words. -/
theorem words_foldl_applyInstr :
    ∀ (l : List Instr) (recs : List WordRecord),
      wordsOf (l.foldl applyInstr recs) = wordsOf recs := by
  intro l
  induction l with
  | nil => intro recs; rfl
  | cons i l ih => intro recs; rw [List.foldl_cons, ih, applyInstr_words]

/-- The last-writer fold from an arbitrary start falls back to the start
exactly when no instruction writes the position. -/
theorem lastWriter_foldl (w : List String) (j : Nat) :
    ∀ (l : List Instr) (a : Option Instr),
      l.foldl (fun acc i => if writeIdx w i = some j then some i else acc) a
        = (lastWriter l w j).or a := by
  intro l
  induction l with
  | nil => intro a; rfl
  | cons i l ih =>
    intro a
    rw [List.foldl_cons, ih (if writeIdx w i = some j then some i else a)]
    have h2 : lastWriter (i :: l) w j
        = (lastWriter l w j).or (if writeIdx w i = some j then some i else none) := by
      unfold lastWriter
      rw [List.foldl_cons]
      exact ih _
    rw [h2]
    by_cases hw : writeIdx w i = some j
    · rw [if_pos hw, if_pos hw]
      cases lastWriter l w j <;> rfl
    · rw [if_neg hw, if_neg hw]
      cases lastWriter l w j <;> rfl

/-- Pointwise characterization of an instruction sequence: a position is
patched by its last writer (if any) applied to the original record, and
untouched otherwise. -/
theorem foldl_applyInstr_getElem? :
    ∀ (l : List Instr) (recs : List WordRecord) (j : Nat),
      (l.foldl applyInstr recs)[j]?
        = (lastWriter l (wordsOf recs) j).elim (recs[j]?)
            (fun i2 => (recs[j]?).map (patchRec i2.name i2.cid)) := by
  intro l
  induction l with
  | nil => intro recs j; rfl
  | cons i l ih =>
    intro recs j
    rw [List.foldl_cons, ih (applyInstr recs i) j, applyInstr_words]
    have h2 : lastWriter (i :: l) (wordsOf recs) j
        = (lastWriter l (wordsOf recs) j).or
            (if writeIdx (wordsOf recs) i = some j then some i else none) := by
      unfold lastWriter
      rw [List.foldl_cons]
      exact lastWriter_foldl (wordsOf recs) j l _
    rw [h2, applyInstr_getElem?]
    by_cases hw : writeIdx (wordsOf recs) i = some j
    · rw [if_pos hw, if_pos hw]
      cases hl : lastWriter l (wordsOf recs) j with
      | none => rfl
      | some x =>
        show ((recs[j]?).map (patchRec i.name i.cid)).map (patchRec x.name x.cid)
          = (recs[j]?).map (patchRec x.name x.cid)
        rw [Option.map_map]
        cases recs[j]? <;> simp [patchRec]
    · rw [if_neg hw, if_neg hw]
      cases hl : lastWriter l (wordsOf recs) j <;> rfl

/-- Replaying an instruction sequence on its own output is a no-op: the
patch applied by each last writer is absorbing. -/
theorem foldl_applyInstr_idem (l : List Instr) (recs : List WordRecord) :
    l.foldl applyInstr (l.foldl applyInstr recs) = l.foldl applyInstr recs := by
  apply List.ext_getElem?
  intro j
  rw [foldl_applyInstr_getElem? l (l.foldl applyInstr recs) j, words_foldl_applyInstr,
    foldl_applyInstr_getElem? l recs j]
  cases hl : lastWriter l (wordsOf recs) j with
  | none => rfl
  | some i =>
    show ((recs[j]?).map (patchRec i.name i.cid)).map (patchRec i.name i.cid)
      = (recs[j]?).map (patchRec i.name i.cid)
    rw [Option.map_map]
    cases recs[j]? <;> simp [patchRec]

/-! ## Helper lemmas: propagation as its instruction sequence -/

/-- The store effect of one bookkept word propagation is one
instruction. -/
theorem wordStep_fst (name : String) (cid : Int) (acc : List WordRecord × Stats)
    (w : String) :
    (wordStep name cid acc w).1 = applyInstr acc.1 ⟨name, cid, w⟩ := by
  by_cases h : (updateOneWord acc.1 name cid w).2 = true <;>
    simp [wordStep, h, applyInstr]

/-- The store effect of the inner loop is its instruction sequence. -/
theorem updateCategoryWords_fst (name : String) (cid : Int) :
    ∀ (ws : List String) (acc : List WordRecord × Stats),
      (updateCategoryWords name cid ws acc).1
        = (ws.map (fun w => Instr.mk name cid w)).foldl applyInstr acc.1 := by
  intro ws
  induction ws with
  | nil => intro acc; rfl
  | cons w ws ih =>
    intro acc
    have hcons : updateCategoryWords name cid (w :: ws) acc
        = updateCategoryWords name cid ws (wordStep name cid acc w) := rfl
    rw [hcons, ih, List.map_cons, List.foldl_cons, wordStep_fst]

/-- The store effect of one snapshot entry is its instruction sequence. -/
theorem categoryStep_fst (acc : List WordRecord × Stats) (e : String × CatData) :
    (categoryStep acc e).1
      = (e.2.all_words.map (fun w => Instr.mk e.1 e.2.cluster_id w)).foldl
          applyInstr acc.1 := by
  have := updateCategoryWords_fst e.1 e.2.cluster_id e.2.all_words
    (acc.1, { acc.2 with categories_processed := acc.2.categories_processed + 1 })
  simpa [categoryStep] using this

/-- The store effect of the whole propagation stage is its flattened
instruction sequence. -/
theorem updateFrom_fst :
    ∀ (snap : Snapshot) (acc : List WordRecord × Stats),
      (updateFrom snap acc).1 = (instrsOf snap).foldl applyInstr acc.1 := by
  intro snap
  induction snap with
  | nil => intro acc; rfl
  | cons e snap ih =>
    intro acc
    have hcons : updateFrom (e :: snap) acc = updateFrom snap (categoryStep acc e) := rfl
    have hinstr : instrsOf (e :: snap)
        = (e.2.all_words.map (fun w => Instr.mk e.1 e.2.cluster_id w)) ++ instrsOf snap := rfl
    rw [hcons, ih, hinstr, List.foldl_append, categoryStep_fst]

/-- The stored words survive one bookkept word propagation. -/
theorem wordStep_words (name : String) (cid : Int) (acc : List WordRecord × Stats)
    (w : String) :
    wordsOf (wordStep name cid acc w).1 = wordsOf acc.1 := by
  rw [wordStep_fst, applyInstr_words]

/-- The stored words survive one snapshot entry of propagation. -/
theorem categoryStep_words (acc : List WordRecord × Stats) (e : String × CatData) :
    wordsOf (categoryStep acc e).1 = wordsOf acc.1 := by
  rw [categoryStep_fst, words_foldl_applyInstr]

/-! ## Helper lemmas: failed counts -/

/-- One bookkept word propagation adds one failure exactly when the word
is absent from the store. -/
theorem wordStep_failed (name : String) (cid : Int) (acc : List WordRecord × Stats)
    (w : String) :
    (wordStep name cid acc w).2.total_failed
      = acc.2.total_failed + (if w ∈ wordsOf acc.1 then 0 else 1) := by
  by_cases hmem : w ∈ wordsOf acc.1
  · have hfound : (updateOneWord acc.1 name cid w).2 = true :=
      (updateOneWord_found acc.1 name cid w).mpr hmem
    simp [wordStep, hfound, hmem]
  · have hfound : ¬(updateOneWord acc.1 name cid w).2 = true :=
      fun hf => hmem ((updateOneWord_found acc.1 name cid w).mp hf)
    simp [wordStep, hfound, hmem]

/-- The inner loop adds one failure per word absent from the store. -/
theorem updateCategoryWords_failed (name : String) (cid : Int) :
    ∀ (ws : List String) (acc : List WordRecord × Stats),
      (updateCategoryWords name cid ws acc).2.total_failed
        = acc.2.total_failed
          + (ws.filter (fun w => decide (w ∉ wordsOf acc.1))).length := by
  intro ws
  induction ws with
  | nil => intro acc; simp [updateCategoryWords]
  | cons w ws ih =>
    intro acc
    have hcons : updateCategoryWords name cid (w :: ws) acc
        = updateCategoryWords name cid ws (wordStep name cid acc w) := rfl
    rw [hcons, ih, wordStep_words, wordStep_failed, List.filter_cons]
    by_cases hmem : w ∈ wordsOf acc.1
    · simp [hmem]
    · simp [hmem]
      omega

/-- The whole propagation stage adds one failure per instruction whose
word is absent from the store. -/
theorem updateFrom_failed :
    ∀ (snap : Snapshot) (acc : List WordRecord × Stats),
      (updateFrom snap acc).2.total_failed
        = acc.2.total_failed
          + ((instrsOf snap).filter (fun i => decide (i.word ∉ wordsOf acc.1))).length := by
  intro snap
  induction snap with
  | nil => intro acc; simp [updateFrom, instrsOf]
  | cons e snap ih =>
    intro acc
    have hcons : updateFrom (e :: snap) acc = updateFrom snap (categoryStep acc e) := rfl
    have hinstr : instrsOf (e :: snap)
        = (e.2.all_words.map (fun w => Instr.mk e.1 e.2.cluster_id w)) ++ instrsOf snap := rfl
    rw [hcons, ih, categoryStep_words, hinstr, List.filter_append, List.length_append]
    have hcat : (categoryStep acc e).2.total_failed
        = acc.2.total_failed
          + (e.2.all_words.filter (fun w => decide (w ∉ wordsOf acc.1))).length := by
      have := updateCategoryWords_failed e.1 e.2.cluster_id e.2.all_words
        (acc.1, { acc.2 with categories_processed := acc.2.categories_processed + 1 })
      simpa [categoryStep] using this
    have hmapfilter :
        ((e.2.all_words.map (fun w => Instr.mk e.1 e.2.cluster_id w)).filter
          (fun i => decide (i.word ∉ wordsOf acc.1))).length
        = (e.2.all_words.filter (fun w => decide (w ∉ wordsOf acc.1))).length := by
      rw [List.filter_map, List.length_map]
      rfl
    rw [hcat, hmapfilter]
    omega

/-! ## Claim C6 -/

/-- C6: propagation is idempotent: running the stage twice with the same
snapshot yields exactly the store of a single run, and the second run
fails only on the instruction words absent from the store (the same words
a single run fails on, since propagation never changes the stored
words). -/
theorem C6_propagation_idempotent (snap : Snapshot) (recs : List WordRecord) :
    (update_words_with_categories snap (update_words_with_categories snap recs).1).1
      = (update_words_with_categories snap recs).1
    ∧ (update_words_with_categories snap (update_words_with_categories snap recs).1).2.total_failed
      = ((instrsOf snap).filter (fun i => decide (i.word ∉ wordsOf recs))).length := by
  constructor
  · rw [update_words_with_categories, update_words_with_categories,
      updateFrom_fst, updateFrom_fst]
    exact foldl_applyInstr_idem (instrsOf snap) recs
  · rw [show update_words_with_categories snap (update_words_with_categories snap recs).1
        = updateFrom snap ((update_words_with_categories snap recs).1, ⟨0, 0, 0⟩) from rfl,
      updateFrom_failed]
    have hw : wordsOf (update_words_with_categories snap recs).1 = wordsOf recs := by
      rw [update_words_with_categories, updateFrom_fst]
      exact words_foldl_applyInstr (instrsOf snap) recs
    rw [hw]
    simp

end Lexibase
